import Mathlib

/-!
# Verification of the memegen captioning core

Shallow embedding of `src/memegen/domain/image.py`.

Conventions of the embedding:

* Python strings are `List Char`; `text[i]` is `text.get? i`.
* Pillow's font measurement (`ImageFont.truetype(font, size).getsize(text)`
  and `draw.multiline_textsize(text, font)`) is abstracted as explicit
  measure functions passed in as parameters (`getsize : List Char → Nat → Nat`
  giving the single-line pixel width of a text at a font size, and
  `textsize : List Char → Nat → Nat × Nat` giving the (width, height) of a
  multi-line block).  The code never inspects these values other than by
  comparisons, so every claim is stated for arbitrary measure functions.
* `hashlib.md5` is abstracted as a `digest : List Char → List Char`
  parameter; repeated `sha.update` calls digest the concatenation of
  their arguments, which is how `imageHash` feeds `digest`.
* Drawing is represented by the list of draw commands issued to Pillow,
  in order; each `multiline_text` call is one `DrawCmd`.
* Python's float arithmetic on positions is modelled with `ℚ` (the code
  only ever halves, subtracts and multiplies by 7/6, so no rounding is
  involved before Pillow receives the coordinates).
-/

/-- One `draw.multiline_text(pos, text, color, ...)` call issued by the code.
Positions are rationals because Python computes them with `/` (true
division). Colors are RGB triples. -/
structure DrawCmd where
  pos : ℚ × ℚ
  text : List Char
  color : Nat × Nat × Nat
deriving DecidableEq

/-- `(0, 0, 0)`: the outline color used by `_draw_outlined_text`. -/
def blackColor : Nat × Nat × Nat := (0, 0, 0)

/-- `(255, 255, 255)`: the fill color used by `_draw_outlined_text`. -/
def whiteColor : Nat × Nat × Nat := (255, 255, 255)

/-- `[i for i in range(len(text)) if text[i] == ' ']` in `_split`
(image.py line 193): every index of a space character, in scan order. -/
def spaceIndices (text : List Char) : List Nat :=
  (List.range text.length).filter fun i => text.get? i == some ' '

/-- `[abs(i - len(text) // 2) for i in space_indices]` in `_split`
(image.py line 194).  `Nat.dist i m` is `|i - m|`. -/
def spaceProximities (text : List Char) : List Nat :=
  (spaceIndices text).map fun i => Nat.dist i (text.length / 2)

/-- The `for i, j in zip(space_proximities, space_indices): if i == min(...):
result = ...; break` selection in `_split` (image.py lines 195-198): the first
space index whose proximity equals the minimum proximity.  `none` when there
is no space at all (in the source this state is unreachable because the
enclosing guard requires an interior space, and Python's `min` would raise on
an empty list). -/
def chooseSplit (text : List Char) : Option Nat :=
  match (spaceProximities text).min? with
  | none => none
  | some m =>
    (((spaceProximities text).zip (spaceIndices text)).find? fun ij =>
      ij.1 == m).map fun ij => ij.2

/-- `_split` (image.py lines 177-200).  The guard `len(text) >= 3 and
' ' in text[1:-1]` becomes `3 ≤ length ∧ ' ' ∈ (drop 1).take (length - 2)`
(Python's `text[1:-1]` is exactly `(text.drop 1).take (text.length - 2)`). -/
def _split (text : List Char) : List (List Char) :=
  if 3 ≤ text.length ∧ ' ' ∈ (text.drop 1).take (text.length - 2) then
    match chooseSplit text with
    | some j => [text.take j, text.drop (j + 1)]
    | none => [text]
  else
    [text]

/-- The `while` loop of `_maximize_font_size` (image.py lines 169-172),
as structural recursion on the current candidate size: at size `s`, if
`getsize(text)[0] > max_size and s > 1` decrement, else stop.  `w s` is the
measured single-line pixel width of the (fixed) text at font size `s`. -/
def maximizeLoop (w : Nat → Nat) (maxSize : Nat) : Nat → Nat
  | 0 => 0
  | s + 1 =>
    if maxSize < w (s + 1) ∧ 1 < s + 1 then maximizeLoop w maxSize s
    else s + 1

/-- `_maximize_font_size` (image.py lines 163-174): start at `max_size`
(which is simultaneously the pixel-width bound and the initial font size)
and run the decrement loop. -/
def _maximize_font_size (w : Nat → Nat) (maxSize : Nat) : Nat :=
  maximizeLoop w maxSize maxSize

/-- `_optimize_font_size` (image.py lines 139-160).  `getsize text s` is the
measured single-line width of `text` at font size `s` (Pillow's
`ImageFont.truetype(font, s).getsize(text)[0]`). -/
def _optimize_font_size (getsize : List Char → Nat → Nat) (text : List Char)
    (maxFontSize minFontSize maxTextLen : Nat) : Nat × List Char :=
  let phrases := if maxTextLen < getsize text minFontSize then _split text
    else [text]
  let fontSize := phrases.foldl
    (fun fs p => min (_maximize_font_size (getsize p) maxTextLen) fs)
    (maxFontSize / phrases.length)
  (fontSize, List.intercalate ['\n'] phrases)

/-- `range(-outline_range, outline_range + 1)` (image.py lines 128-129):
the integers `-t, ..., t` in ascending order. -/
def offsetRange (t : Nat) : List Int :=
  (List.range (2 * t + 1)).map fun (i : Nat) => (i : Int) - (t : Int)

/-- `outline_range = max(1, font_size // 25)` (image.py line 127). -/
def outlineThickness (fontSize : Nat) : Nat := max 1 (fontSize / 25)

/-- `_draw_outlined_text` (image.py lines 123-136): the list of
`multiline_text` calls it makes, in order — black text at every offset in
`[-t, t] × [-t, t]` with `t = max(1, font_size // 25)` (outer loop on `x`,
inner on `y`), then white text once at the exact position. -/
def _draw_outlined_text (pos : ℚ × ℚ) (text : List Char) (fontSize : Nat) :
    List DrawCmd :=
  ((offsetRange (outlineThickness fontSize)).flatMap fun (x : Int) =>
    (offsetRange (outlineThickness fontSize)).map fun (y : Int) =>
      { pos := (pos.1 + (x : ℚ), pos.2 + (y : ℚ)), text := text,
        color := blackColor }) ++
  [{ pos := pos, text := text, color := whiteColor }]

/-- Lines 105-108 of image.py: the top caption's anchor,
`((image_width / 2) - (text_width / 2), 0)`, in float (here: rational)
arithmetic. -/
def topTextPosition (imageW textBlockW : Nat) : ℚ × ℚ :=
  ((imageW : ℚ) / 2 - (textBlockW : ℚ) / 2, 0)

/-- Lines 110-113 of image.py: the bottom caption's anchor,
`((image_width / 2) - (text_width / 2),
image_height - text_height * (7 / 6))`, in float (here: rational)
arithmetic. -/
def bottomTextPosition (imageW imageH textBlockW textBlockH : Nat) :
    ℚ × ℚ :=
  ((imageW : ℚ) / 2 - (textBlockW : ℚ) / 2,
    (imageH : ℚ) - (textBlockH : ℚ) * ((7 : ℚ) / 6))

/-- The drawing part of `_generate` (image.py lines 86-120), for an already
loaded and thumbnailed background of size `imageW × imageH`: font-size
constants (`int(h / 5)`, `int(h / 12)`, `w - 20`), per-caption layout,
positioning (lines 105-113, float arithmetic), and the two outlined draws
(top first, then bottom).  `getsize` and `textsize` abstract Pillow's two
text measurements. -/
def _generate (getsize : List Char → Nat → Nat)
    (textsize : List Char → Nat → Nat × Nat)
    (imageW imageH : Nat) (top0 bottom0 : List Char) : List DrawCmd :=
  let maxFontSize := imageH / 5
  let minFontSize := imageH / 12
  let maxTextLen := imageW - 20
  let topR := _optimize_font_size getsize top0 maxFontSize minFontSize
    maxTextLen
  let bottomR := _optimize_font_size getsize bottom0 maxFontSize minFontSize
    maxTextLen
  let topTextSize := textsize topR.2 topR.1
  let bottomTextSize := textsize bottomR.2 bottomR.1
  _draw_outlined_text (topTextPosition imageW topTextSize.1) topR.2 topR.1 ++
    _draw_outlined_text
      (bottomTextPosition imageW imageH bottomTextSize.1 bottomTextSize.2)
      bottomR.2 bottomR.1

/-- `_generate`'s fallible prefix (image.py lines 66-76 and the font loads):
opening the background and resolving the font happen before any drawing, and
an exception in either aborts the whole render.  `background` carries the
thumbnailed size on success; `fontRes` carries the two measure functions of
the resolved font. -/
def generateExcept (background : Except (List Char) (Nat × Nat))
    (fontRes : Except (List Char)
      ((List Char → Nat → Nat) × (List Char → Nat → Nat × Nat)))
    (top0 bottom0 : List Char) : Except (List Char) (List DrawCmd) :=
  match background with
  | .error e => .error e
  | .ok size =>
    match fontRes with
    | .error e => .error e
    | .ok f => .ok (_generate f.1 f.2 size.1 size.2 top0 bottom0)

/-- A filesystem side effect performed by `Image.save`. -/
inductive FsOp where
  | mkdir : List Char → FsOp
  | write : List Char → FsOp
deriving DecidableEq

/-- `Image.save` (image.py lines 44-59) as the sequence of filesystem
operations it performs together with its outcome: `_generate` runs first;
only if it succeeds does `save` create the missing directory (`os.makedirs`
when `os.path.isdir` is false) and write the file.  An exception from
`_generate` propagates with no filesystem operation performed. -/
def imageSave (gen : Except (List Char) (List DrawCmd))
    (dir path : List Char) (dirExists : Bool) :
    List FsOp × Except (List Char) (List DrawCmd) :=
  match gen with
  | .error e => ([], .error e)
  | .ok data =>
    ((if dirExists then [] else [FsOp.mkdir dir]) ++ [FsOp.write path],
      .ok data)

/-- Python's `str(value or "")` for an optional string field: `None` and
`""` both contribute the empty string. -/
def strOrEmpty (value : Option (List Char)) : List Char :=
  match value with
  | none => []
  | some s => s

/-- Python's `str(value or "")` for an optional int field: `None` and `0`
both contribute the empty string, any other number its decimal digits. -/
def strOrEmptyNat (value : Option Nat) : List Char :=
  match value with
  | none => []
  | some n => if n = 0 then [] else Nat.toDigits 10 n

/-- Python truthiness of an optional string (`None` and `""` are falsy). -/
def truthyStr (value : Option (List Char)) : Bool :=
  match value with
  | none => false
  | some s => !s.isEmpty

/-- Python truthiness of an optional int (`None` and `0` are falsy). -/
def truthyNat (value : Option Nat) : Bool :=
  match value with
  | none => false
  | some n => n != 0

/-- `Image.hash` (image.py lines 37-42): md5 (abstracted as `digest`) of the
concatenation of `str(value or "")` for style, font, width, height in that
order (successive `sha.update` calls hash the concatenated byte string). -/
def imageHash (digest : List Char → List Char)
    (style font : Option (List Char)) (width height : Option Nat) :
    List Char :=
  digest (strOrEmpty style ++ strOrEmpty font ++
    strOrEmptyNat width ++ strOrEmptyNat height)

/-- `Image.path` (image.py lines 24-35): `None` without a root; otherwise
`os.path.join(root, template.key, text.path)` (modelled as
`/`-separated concatenation, its behavior for relative components) plus
either `#<hash>.img` when any of style/font/width/height is truthy, or
plain `.img`. -/
def imagePath (digest : List Char → List Char)
    (root templateKey textPath : List Char)
    (style font : Option (List Char)) (width height : Option Nat) :
    Option (List Char) :=
  if root = [] then none
  else if truthyStr style || truthyStr font || truthyNat width ||
      truthyNat height then
    some (root ++ ['/'] ++ templateKey ++ ['/'] ++ textPath ++ ['#'] ++
      imageHash digest style font width height ++ ['.', 'i', 'm', 'g'])
  else
    some (root ++ ['/'] ++ templateKey ++ ['/'] ++ textPath ++
      ['.', 'i', 'm', 'g'])

/-- A width function that measures every text at every size as 0 pixels wide
(what Pillow reports for the empty caption); used to instantiate theorems at
concrete inputs. -/
def zeroGetsize : List Char → Nat → Nat := fun _ _ => 0

/-- A block-size function that measures every block as 0 × 0; used to
instantiate theorems at concrete inputs. -/
def zeroTextsize : List Char → Nat → Nat × Nat := fun _ _ => (0, 0)

/-- A single-text width function that is 0 at every size; used to
instantiate theorems at concrete inputs. -/
def zeroWidth : Nat → Nat := fun _ => 0

/- ## Helper lemmas about `_split` -/

lemma mem_spaceIndices {text : List Char} {i : Nat} :
    i ∈ spaceIndices text ↔ i < text.length ∧ text.get? i = some ' ' := by
  simp [spaceIndices, List.mem_filter, List.mem_range]

lemma spaceIndices_sorted (text : List Char) :
    (spaceIndices text).Pairwise (· < ·) :=
  List.Pairwise.sublist (List.filter_sublist _)
    (List.pairwise_lt_range text.length)

lemma zip_map_self {α β : Type} (f : α → β) :
    ∀ l : List α, (l.map f).zip l = l.map fun i => (f i, i) := by
  intro l
  induction l with
  | nil => rfl
  | cons a tl ih => simp [List.zip_cons_cons, ih]

lemma foldl_min_le_init : ∀ (l : List Nat) (a : Nat), l.foldl min a ≤ a := by
  intro l
  induction l with
  | nil => intro a; exact Nat.le_refl a
  | cons b tl ih =>
    intro a
    exact le_trans (ih (min a b)) (min_le_left a b)

lemma foldl_min_mem :
    ∀ (l : List Nat) (a : Nat), l.foldl min a = a ∨ l.foldl min a ∈ l := by
  intro l
  induction l with
  | nil => intro a; exact Or.inl rfl
  | cons b tl ih =>
    intro a
    rcases ih (min a b) with h | h
    · rcases min_choice a b with hm | hm
      · exact Or.inl (by rw [List.foldl_cons, h, hm])
      · exact Or.inr (by rw [List.foldl_cons, h, hm]; exact List.mem_cons_self b tl)
    · exact Or.inr (List.mem_cons_of_mem b h)

lemma foldl_min_le_mem :
    ∀ (l : List Nat) (a x : Nat), x ∈ l → l.foldl min a ≤ x := by
  intro l
  induction l with
  | nil => intro a x hx; cases hx
  | cons b tl ih =>
    intro a x hx
    rcases List.mem_cons.mp hx with h | h
    · subst h
      exact le_trans (foldl_min_le_init tl (min a x)) (min_le_right a x)
    · exact ih (min a b) x h

lemma min?_spec {l : List Nat} {m : Nat} (h : l.min? = some m) :
    m ∈ l ∧ ∀ x ∈ l, m ≤ x := by
  cases l with
  | nil => cases h
  | cons a tl =>
    have hm : tl.foldl min a = m := by
      simpa [List.min?] using h
    constructor
    · rw [← hm]
      rcases foldl_min_mem tl a with h0 | h0
      · rw [h0]; exact List.mem_cons_self a tl
      · exact List.mem_cons_of_mem a h0
    · intro x hx
      rw [← hm]
      rcases List.mem_cons.mp hx with h0 | h0
      · rw [h0]; exact foldl_min_le_init tl a
      · exact foldl_min_le_mem tl a x h0

lemma min?_isSome_of_ne_nil {l : List Nat} (h : l ≠ []) :
    ∃ m, l.min? = some m := by
  cases l with
  | nil => exact absurd rfl h
  | cons a tl => exact ⟨tl.foldl min a, by simp [List.min?]⟩

/-- `find?` over the proximity-index pairs: the returned index is a space
index achieving proximity `m`, and every space index strictly to its left
has a different (hence, when `m` is minimal, strictly larger) proximity. -/
lemma find_pair_spec (f : Nat → Nat) (m : Nat) :
    ∀ (l : List Nat), l.Pairwise (· < ·) → ∀ q,
      ((l.map fun i => (f i, i)).find? fun ij => ij.1 == m) = some q →
      q.2 ∈ l ∧ f q.2 = m ∧ ∀ k ∈ l, k < q.2 → f k ≠ m := by
  intro l
  induction l with
  | nil => intro _ q hq; cases hq
  | cons a tl ih =>
    intro hpw q hq
    rw [List.map_cons] at hq
    rcases List.pairwise_cons.mp hpw with ⟨ha, htl⟩
    by_cases hpa : f a = m
    · rw [List.find?_cons_of_pos _ (by simpa using hpa)] at hq
      have hqa : q = (f a, a) := by injection hq with h; exact h.symm
      subst hqa
      refine ⟨List.mem_cons_self a tl, hpa, ?_⟩
      intro k hk hklt
      rcases List.mem_cons.mp hk with h0 | h0
      · subst h0; exact absurd hklt (lt_irrefl k)
      · exact absurd hklt (not_lt_of_gt (ha k h0))
    · rw [List.find?_cons_of_neg _ (by simpa using hpa)] at hq
      rcases ih htl q hq with ⟨h1, h2, h3⟩
      refine ⟨List.mem_cons_of_mem a h1, h2, ?_⟩
      intro k hk hklt
      rcases List.mem_cons.mp hk with h0 | h0
      · subst h0; exact hpa
      · exact h3 k h0 hklt

/-- The guard of `_split` yields an interior space index. -/
lemma interior_space_index {text : List Char} (h3 : 3 ≤ text.length)
    (hsp : ' ' ∈ (text.drop 1).take (text.length - 2)) :
    ∃ k, 1 ≤ k ∧ k ≤ text.length - 2 ∧ text.get? k = some ' ' := by
  rcases List.mem_iff_getElem.mp hsp with ⟨i, hi, hgi⟩
  have hlen : ((text.drop 1).take (text.length - 2)).length =
      min (text.length - 2) (text.length - 1) := by
    simp [List.length_take, List.length_drop]
  have hi2 : i < text.length - 2 := by
    rw [hlen] at hi; omega
  have hi3 : 1 + i < text.length := by omega
  have hgt : text[1 + i] = ' ' := by
    have h1 : i < (text.drop 1).length := by
      simp [List.length_drop]; omega
    calc text[1 + i] = (text.drop 1)[i] := (List.getElem_drop text).symm
      _ = ((text.drop 1).take (text.length - 2))[i] :=
        (List.getElem_take _).symm
      _ = ' ' := hgi
  refine ⟨1 + i, by omega, by omega, ?_⟩
  rw [List.get?_eq_getElem?, List.getElem?_eq_getElem hi3, hgt]

/-- When the guard of `_split` holds, `chooseSplit` returns a space index
that is closest to `len // 2` and, among equally close spaces, leftmost. -/
lemma chooseSplit_spec {text : List Char} (h3 : 3 ≤ text.length)
    (hsp : ' ' ∈ (text.drop 1).take (text.length - 2)) :
    ∃ j, chooseSplit text = some j ∧ j < text.length ∧
      text.get? j = some ' ' ∧
      (∀ k, k < text.length → text.get? k = some ' ' →
        Nat.dist j (text.length / 2) ≤ Nat.dist k (text.length / 2)) ∧
      (∀ k, k < j → text.get? k = some ' ' →
        Nat.dist j (text.length / 2) < Nat.dist k (text.length / 2)) := by
  rcases interior_space_index h3 hsp with ⟨k0, hk01, hk02, hk0s⟩
  have hk0mem : k0 ∈ spaceIndices text :=
    mem_spaceIndices.mpr ⟨by omega, hk0s⟩
  have hne : spaceProximities text ≠ [] := by
    intro h
    have : (spaceIndices text).length = 0 := by
      have := congrArg List.length h
      simpa [spaceProximities] using this
    rcases List.length_eq_zero.mp this with h0
    rw [h0] at hk0mem
    cases hk0mem
  rcases min?_isSome_of_ne_nil hne with ⟨m, hm⟩
  rcases min?_spec hm with ⟨hmmem, hmle⟩
  rcases List.mem_map.mp (by simpa [spaceProximities] using hmmem)
    with ⟨j0, hj0mem, hj0f⟩
  have hfind : ∃ q, (((spaceProximities text).zip (spaceIndices text)).find?
      fun ij => ij.1 == m) = some q := by
    apply Option.isSome_iff_exists.mp
    rw [List.find?_isSome]
    refine ⟨(Nat.dist j0 (text.length / 2), j0), ?_, by simpa using hj0f⟩
    rw [spaceProximities, zip_map_self]
    exact List.mem_map.mpr ⟨j0, hj0mem, rfl⟩
  rcases hfind with ⟨q, hq⟩
  have hq' := hq
  rw [spaceProximities, zip_map_self] at hq'
  rcases find_pair_spec _ m _ (spaceIndices_sorted text) q hq' with
    ⟨hqmem, hqf, hqleft⟩
  rcases mem_spaceIndices.mp hqmem with ⟨hqlt, hqsp⟩
  refine ⟨q.2, ?_, hqlt, hqsp, ?_, ?_⟩
  · unfold chooseSplit
    rw [hm]
    simp only [hq, Option.map_some']
  · intro k hk hks
    have : Nat.dist k (text.length / 2) ∈ spaceProximities text :=
      List.mem_map.mpr ⟨k, mem_spaceIndices.mpr ⟨hk, hks⟩, rfl⟩
    exact hqf ▸ hmle _ this
  · intro k hk hks
    have hkmem : k ∈ spaceIndices text :=
      mem_spaceIndices.mpr ⟨lt_trans hk hqlt, hks⟩
    have hne' : Nat.dist k (text.length / 2) ≠ m := hqleft k hkmem hk
    have hge : m ≤ Nat.dist k (text.length / 2) :=
      hmle _ (List.mem_map.mpr ⟨k, hkmem, rfl⟩)
    rw [hqf]
    omega

lemma split_eq_of_guard {text : List Char} (h3 : 3 ≤ text.length)
    (hsp : ' ' ∈ (text.drop 1).take (text.length - 2)) {j : Nat}
    (hj : chooseSplit text = some j) :
    _split text = [text.take j, text.drop (j + 1)] := by
  rw [_split, if_pos ⟨h3, hsp⟩, hj]

lemma split_eq_of_not_guard {text : List Char}
    (h : ¬(3 ≤ text.length ∧ ' ' ∈ (text.drop 1).take (text.length - 2))) :
    _split text = [text] := by
  rw [_split, if_neg h]

/-- Arithmetic at the heart of C10: a proximity-minimal, leftmost-on-tie
space index can be neither the first nor the last character, because an
interior space (index in `[1, n-2]`) is always at least as close to
`n / 2`, and strictly closer than index 0. -/
lemma chosen_index_bounds {n j k : Nat} (h3 : 3 ≤ n) (hk1 : 1 ≤ k)
    (hk2 : k ≤ n - 2) (hjn : j < n)
    (hle : Nat.dist j (n / 2) ≤ Nat.dist k (n / 2))
    (hstrict : k < j → Nat.dist j (n / 2) < Nat.dist k (n / 2)) :
    1 ≤ j ∧ j ≤ n - 2 := by
  by_cases hkj : k < j
  · have hs := hstrict hkj
    simp only [Nat.dist] at hle hs
    omega
  · simp only [Nat.dist] at hle
    omega

/-- `"ab"`: too short to split. -/
def sampleNoSplit : List Char := ['a', 'b']

/-- `"Hello, world!"`: the first doctest of `_split`. -/
def sampleCanSplit : List Char :=
  ['H', 'e', 'l', 'l', 'o', ',', ' ', 'w', 'o', 'r', 'l', 'd', '!']

/-- `"Hello,"` -/
def sampleLeft : List Char := ['H', 'e', 'l', 'l', 'o', ',']

/-- `"world!"` -/
def sampleRight : List Char := ['w', 'o', 'r', 'l', 'd', '!']

/-- C1: `_split` returns the text unchanged as a single line when its length
is under 3 or it has no space strictly between its first and last character
(Python `' ' in text[1:-1]`); otherwise it returns exactly the two lines
obtained by cutting at the space index closest to `len(text) // 2`
(`Nat.dist j (len / 2)` minimal over all space indices; on ties the leftmost
space in scan order, i.e. every space strictly to the left is strictly
farther), with the chosen space itself dropped from both lines. -/
theorem split_correct (text : List Char) :
    ((text.length < 3 ∨ ' ' ∉ (text.drop 1).take (text.length - 2)) →
      _split text = [text]) ∧
    (3 ≤ text.length → ' ' ∈ (text.drop 1).take (text.length - 2) →
      ∃ j, j < text.length ∧ text.get? j = some ' ' ∧
        (∀ k, k < text.length → text.get? k = some ' ' →
          Nat.dist j (text.length / 2) ≤ Nat.dist k (text.length / 2)) ∧
        (∀ k, k < j → text.get? k = some ' ' →
          Nat.dist j (text.length / 2) < Nat.dist k (text.length / 2)) ∧
        _split text = [text.take j, text.drop (j + 1)]) := by
  constructor
  · intro h
    apply split_eq_of_not_guard
    rintro ⟨h3, hsp⟩
    rcases h with h | h
    · omega
    · exact h hsp
  · intro h3 hsp
    rcases chooseSplit_spec h3 hsp with ⟨j, hj, hjlt, hjsp, hmin, hleft⟩
    exact ⟨j, hjlt, hjsp, hmin, hleft, split_eq_of_guard h3 hsp hj⟩

/-- Witness for C1 at `"ab"` (unsplittable) and `"Hello, world!"`. -/
theorem split_correct_witness :
    _split sampleNoSplit = [sampleNoSplit] ∧
    ∃ j, j < sampleCanSplit.length ∧ sampleCanSplit.get? j = some ' ' ∧
      (∀ k, k < sampleCanSplit.length → sampleCanSplit.get? k = some ' ' →
        Nat.dist j (sampleCanSplit.length / 2) ≤
          Nat.dist k (sampleCanSplit.length / 2)) ∧
      (∀ k, k < j → sampleCanSplit.get? k = some ' ' →
        Nat.dist j (sampleCanSplit.length / 2) <
          Nat.dist k (sampleCanSplit.length / 2)) ∧
      _split sampleCanSplit =
        [sampleCanSplit.take j, sampleCanSplit.drop (j + 1)] :=
  ⟨(split_correct sampleNoSplit).1 (by decide),
    (split_correct sampleCanSplit).2 (by decide) (by decide)⟩

/-- C10: whenever `_split` returns two lines, both are non-empty and
rejoining them with a single space restores the input exactly; in
particular the chosen split index is never the first or last character,
even though leading and trailing spaces are enumerated among the
candidates. -/
theorem split_join (text l1 l2 : List Char) (h : _split text = [l1, l2]) :
    l1 ≠ [] ∧ l2 ≠ [] ∧ l1 ++ ' ' :: l2 = text := by
  by_cases hg : 3 ≤ text.length ∧ ' ' ∈ (text.drop 1).take (text.length - 2)
  · rcases hg with ⟨h3, hsp⟩
    rcases chooseSplit_spec h3 hsp with ⟨j, hj, hjlt, hjsp, hmin, hleft⟩
    have hs : ([l1, l2] : List (List Char)) =
        [text.take j, text.drop (j + 1)] :=
      h.symm.trans (split_eq_of_guard h3 hsp hj)
    injection hs with e1 hs'
    injection hs' with e2 _
    rcases interior_space_index h3 hsp with ⟨k, hk1, hk2, hks⟩
    rcases chosen_index_bounds h3 hk1 hk2 hjlt
      (hmin k (by omega) hks) (fun hkj => hleft k hkj hks) with ⟨hj1, hj2⟩
    have hl1 : l1.length = j := by
      rw [e1, List.length_take]
      omega
    have hl2 : l2.length = text.length - (j + 1) := by
      rw [e2, List.length_drop]
    have hgj : text[j] = ' ' := by
      have h0 := hjsp
      rw [List.get?_eq_getElem?, List.getElem?_eq_getElem hjlt] at h0
      exact Option.some.inj h0
    refine ⟨?_, ?_, ?_⟩
    · intro hnil
      rw [hnil] at hl1
      simp at hl1
      omega
    · intro hnil
      rw [hnil] at hl2
      simp at hl2
      omega
    · rw [e1, e2, ← hgj, ← List.drop_eq_getElem_cons hjlt,
        List.take_append_drop]
  · have hs := split_eq_of_not_guard hg
    rw [h] at hs
    have := congrArg List.length hs
    simp at this

/-- Witness for C10 at `"Hello, world!"`. -/
theorem split_join_witness :
    sampleLeft ≠ [] ∧ sampleRight ≠ [] ∧
      sampleLeft ++ ' ' :: sampleRight = sampleCanSplit :=
  split_join sampleCanSplit sampleLeft sampleRight (by decide)

/- ## Helper lemmas about `_maximize_font_size` -/

lemma maximizeLoop_le (w : Nat → Nat) (m : Nat) :
    ∀ s, maximizeLoop w m s ≤ s := by
  intro s
  induction s with
  | zero => exact Nat.le_refl 0
  | succ n ih =>
    rw [maximizeLoop]
    split
    · exact le_trans ih (Nat.le_succ n)
    · exact Nat.le_refl (n + 1)

lemma maximizeLoop_pos (w : Nat → Nat) (m : Nat) :
    ∀ s, 1 ≤ s → 1 ≤ maximizeLoop w m s := by
  intro s
  induction s with
  | zero => intro h; cases h
  | succ n ih =>
    intro _
    rw [maximizeLoop]
    split
    · rename_i h
      exact ih (by omega)
    · exact Nat.succ_le_succ (Nat.zero_le n)

/-- Every size strictly above the loop's result, up to the starting size,
was visited and measured too wide. -/
lemma maximizeLoop_fail_above (w : Nat → Nat) (m : Nat) :
    ∀ s t, maximizeLoop w m s < t → t ≤ s → m < w t := by
  intro s
  induction s with
  | zero => intro t h1 h2; omega
  | succ n ih =>
    intro t h1 h2
    rw [maximizeLoop] at h1
    by_cases hc : m < w (n + 1) ∧ 1 < n + 1
    · rw [if_pos hc] at h1
      by_cases ht : t = n + 1
      · exact ht ▸ hc.1
      · exact ih t h1 (by omega)
    · rw [if_neg hc] at h1
      omega

/-- The loop stops either at 1 (or below its own start) or at a fitting
size. -/
lemma maximizeLoop_exit (w : Nat → Nat) (m : Nat) :
    ∀ s, maximizeLoop w m s ≤ 1 ∨ w (maximizeLoop w m s) ≤ m := by
  intro s
  induction s with
  | zero => exact Or.inl (Nat.zero_le 1)
  | succ n ih =>
    rw [maximizeLoop]
    split
    · exact ih
    · rename_i hc
      rcases not_and_or.mp hc with h1 | h2
      · exact Or.inr (le_of_not_lt h1)
      · exact Or.inl (by omega)

/-- C3: for any (monotone) width measure and any positive ceiling
`maxSize` (which `_maximize_font_size` uses both as the starting font size
and as the pixel-width bound), the returned size either fits
(`w r ≤ maxSize`) and is the largest size in `[1, maxSize]` that fits, or
equals 1 because no size in `[1, maxSize]` fits — the degenerate case,
returned rather than raised. -/
theorem maximize_font_size_correct (w : Nat → Nat) (maxSize : Nat)
    (_hmono : ∀ s t, s ≤ t → w s ≤ w t) (h1 : 1 ≤ maxSize) :
    (w (_maximize_font_size w maxSize) ≤ maxSize ∧
      ∀ s, 1 ≤ s → s ≤ maxSize → w s ≤ maxSize →
        s ≤ _maximize_font_size w maxSize) ∨
    (_maximize_font_size w maxSize = 1 ∧
      ∀ s, 1 ≤ s → s ≤ maxSize → maxSize < w s) := by
  by_cases hw : w (_maximize_font_size w maxSize) ≤ maxSize
  · left
    refine ⟨hw, ?_⟩
    intro s hs1 hs2 hsfit
    by_contra hgt
    push_neg at hgt
    exact absurd hsfit
      (not_le_of_gt (maximizeLoop_fail_above w maxSize maxSize s hgt hs2))
  · right
    have hr1 : _maximize_font_size w maxSize = 1 := by
      rcases maximizeLoop_exit w maxSize maxSize with h | h
      · have hge : 1 ≤ _maximize_font_size w maxSize :=
          maximizeLoop_pos w maxSize maxSize h1
        have hle : _maximize_font_size w maxSize ≤ 1 := h
        omega
      · exact absurd h hw
    refine ⟨hr1, ?_⟩
    intro s hs1 hs2
    by_cases hseq : s = 1
    · subst hseq
      rw [hr1] at hw
      exact lt_of_not_le hw
    · exact maximizeLoop_fail_above w maxSize maxSize s
        (by rw [show maximizeLoop w maxSize maxSize =
          _maximize_font_size w maxSize from rfl, hr1]; omega) hs2

/-- Witness for C3 with the all-zero width measure and ceiling 5 (the
loop fits immediately and returns 5, the largest fitting size). -/
theorem maximize_font_size_correct_witness :
    1 ≤ 5 ∧
    ((zeroWidth (_maximize_font_size zeroWidth 5) ≤ 5 ∧
      ∀ s, 1 ≤ s → s ≤ 5 → zeroWidth s ≤ 5 →
        s ≤ _maximize_font_size zeroWidth 5) ∨
    (_maximize_font_size zeroWidth 5 = 1 ∧
      ∀ s, 1 ≤ s → s ≤ 5 → 5 < zeroWidth s)) :=
  ⟨by decide, maximize_font_size_correct zeroWidth 5
    (fun s t h => Nat.le_refl 0) (by decide)⟩

/-- C4 counterexample: with the pipeline's default 400 × 400 thumbnail,
`max_font_size = 400 / 5 = 80` but `_maximize_font_size` is called with
the width bound `max_text_len = 400 - 20 = 380` as its ceiling, and for a
caption measuring 0 pixels wide (e.g. the empty caption) it returns 380 —
far outside `[1, max_font_size]`.  (The pipeline's final size is capped at
80 separately, inside `_optimize_font_size`.) -/
theorem maximize_exceeds_max_font_size :
    _maximize_font_size zeroWidth (400 - 20) = 380 ∧
      ¬ _maximize_font_size zeroWidth (400 - 20) ≤ 400 / 5 := by
  decide

/-- C4 amended: for every width measure and every positive ceiling,
`_maximize_font_size` returns a size in `[1, c]` where `c` is its own
argument (the max pixel width, `max_text_len` in the pipeline) — not the
pipeline's `max_font_size`, which is enforced separately by
`_optimize_font_size`. -/
theorem maximize_font_size_bounds (w : Nat → Nat) (maxSize : Nat)
    (h1 : 1 ≤ maxSize) :
    1 ≤ _maximize_font_size w maxSize ∧
      _maximize_font_size w maxSize ≤ maxSize :=
  ⟨maximizeLoop_pos w maxSize maxSize h1, maximizeLoop_le w maxSize maxSize⟩

/-- Witness for the amended C4 at ceiling 3. -/
theorem maximize_font_size_bounds_witness :
    1 ≤ 3 ∧ 1 ≤ _maximize_font_size zeroWidth 3 ∧
      _maximize_font_size zeroWidth 3 ≤ 3 :=
  ⟨by decide, maximize_font_size_bounds zeroWidth 3 (by decide)⟩

/- ## Helper lemmas about the `min`-fold of `_optimize_font_size` -/

lemma foldl_min_g_le_init {α : Type} (g : α → Nat) :
    ∀ (l : List α) (init : Nat),
      l.foldl (fun fs p => min (g p) fs) init ≤ init := by
  intro l
  induction l with
  | nil => intro init; exact Nat.le_refl init
  | cons a tl ih =>
    intro init
    simp only [List.foldl_cons]
    exact le_trans (ih (min (g a) init)) (min_le_right (g a) init)

lemma foldl_min_g_le_mem {α : Type} (g : α → Nat) :
    ∀ (l : List α) (init : Nat) (p : α), p ∈ l →
      l.foldl (fun fs p => min (g p) fs) init ≤ g p := by
  intro l
  induction l with
  | nil => intro init p hp; cases hp
  | cons a tl ih =>
    intro init p hp
    simp only [List.foldl_cons]
    rcases List.mem_cons.mp hp with h | h
    · subst h
      exact le_trans (foldl_min_g_le_init g tl (min (g p) init))
        (min_le_left (g p) init)
    · exact ih (min (g a) init) p h

lemma foldl_min_g_eq {α : Type} (g : α → Nat) :
    ∀ (l : List α) (init : Nat),
      l.foldl (fun fs p => min (g p) fs) init = init ∨
        ∃ p ∈ l, l.foldl (fun fs p => min (g p) fs) init = g p := by
  intro l
  induction l with
  | nil => intro init; exact Or.inl rfl
  | cons a tl ih =>
    intro init
    simp only [List.foldl_cons]
    rcases ih (min (g a) init) with h | ⟨p, hp, h⟩
    · rw [h]
      rcases min_choice (g a) init with hm | hm
      · exact Or.inr ⟨a, List.mem_cons_self a tl, hm⟩
      · exact Or.inl hm
    · exact Or.inr ⟨p, List.mem_cons_of_mem a hp, h⟩

/-- C2: `_optimize_font_size` splits the text (via `_split`) exactly when
the single-line width measured at `minFontSize` exceeds `maxTextLen`,
otherwise keeps the one-element phrase list; the chosen font size is the
minimum of the initial candidate `maxFontSize / len(phrases)` and the
per-phrase `_maximize_font_size` results (it is ≤ each of them and equal
to one of them); and the returned text is the phrases joined by a newline
in original order. -/
theorem optimize_font_size_correct (getsize : List Char → Nat → Nat)
    (text : List Char) (maxFontSize minFontSize maxTextLen : Nat) :
    (_optimize_font_size getsize text maxFontSize minFontSize
        maxTextLen).2 =
      List.intercalate ['\n']
        (if maxTextLen < getsize text minFontSize then _split text
          else [text]) ∧
    (_optimize_font_size getsize text maxFontSize minFontSize
        maxTextLen).1 ≤
      maxFontSize / (if maxTextLen < getsize text minFontSize then
        _split text else [text]).length ∧
    (∀ p ∈ (if maxTextLen < getsize text minFontSize then _split text
        else [text]),
      (_optimize_font_size getsize text maxFontSize minFontSize
        maxTextLen).1 ≤ _maximize_font_size (getsize p) maxTextLen) ∧
    ((_optimize_font_size getsize text maxFontSize minFontSize
        maxTextLen).1 =
      maxFontSize / (if maxTextLen < getsize text minFontSize then
        _split text else [text]).length ∨
      ∃ p ∈ (if maxTextLen < getsize text minFontSize then _split text
        else [text]),
        (_optimize_font_size getsize text maxFontSize minFontSize
          maxTextLen).1 = _maximize_font_size (getsize p) maxTextLen) := by
  refine ⟨rfl, ?_, ?_, ?_⟩
  · exact foldl_min_g_le_init
      (fun p => _maximize_font_size (getsize p) maxTextLen) _ _
  · intro p hp
    exact foldl_min_g_le_mem
      (fun p => _maximize_font_size (getsize p) maxTextLen) _ _ p hp
  · exact foldl_min_g_eq
      (fun p => _maximize_font_size (getsize p) maxTextLen) _ _

/-- Witness for C2 with the all-zero width measure: no split happens, and
the chosen size is bounded by the per-phrase maximal size. -/
theorem optimize_font_size_correct_witness :
    (['a', 'b'] : List Char) ∈
      (if 5 < zeroGetsize ['a', 'b'] 2 then _split ['a', 'b']
        else [['a', 'b']]) ∧
    (_optimize_font_size zeroGetsize ['a', 'b'] 10 2 5).1 ≤
      _maximize_font_size (zeroGetsize ['a', 'b']) 5 :=
  ⟨by decide,
    (optimize_font_size_correct zeroGetsize ['a', 'b'] 10 2 5).2.2.1
      ['a', 'b'] (by decide)⟩

/- ## Helper lemmas about `_draw_outlined_text` -/

lemma length_offsetRange (t : Nat) : (offsetRange t).length = 2 * t + 1 := by
  rw [offsetRange, List.length_map, List.length_range]

lemma mem_offsetRange {t : Nat} {a : Int} :
    a ∈ offsetRange t ↔ -(t : Int) ≤ a ∧ a ≤ (t : Int) := by
  constructor
  · intro h
    rw [offsetRange] at h
    rcases List.mem_map.mp h with ⟨i, hi, rfl⟩
    rw [List.mem_range] at hi
    omega
  · rintro ⟨h1, h2⟩
    rw [offsetRange]
    apply List.mem_map.mpr
    refine ⟨(a + t).toNat, ?_, ?_⟩
    · rw [List.mem_range]
      omega
    · omega

lemma length_flatMap_const {α β : Type} (l : List α) (f : α → List β)
    (n : Nat) (h : ∀ a, (f a).length = n) :
    (l.flatMap f).length = l.length * n := by
  induction l with
  | nil => simp
  | cons a tl ih =>
    rw [List.flatMap_cons, List.length_append, h a, ih, List.length_cons]
    ring

/-- The black outline passes of `_draw_outlined_text` are exactly its
filter on the black color. -/
lemma draw_black_filter (pos : ℚ × ℚ) (text : List Char) (fontSize : Nat) :
    (_draw_outlined_text pos text fontSize).filter
      (fun c => decide (c.color = blackColor)) =
    (offsetRange (outlineThickness fontSize)).flatMap fun (x : Int) =>
      (offsetRange (outlineThickness fontSize)).map fun (y : Int) =>
        DrawCmd.mk (pos.1 + (x : ℚ), pos.2 + (y : ℚ)) text blackColor := by
  rw [_draw_outlined_text, List.filter_append]
  have h1 : List.filter (fun c => decide (c.color = blackColor))
      ((offsetRange (outlineThickness fontSize)).flatMap fun (x : Int) =>
        (offsetRange (outlineThickness fontSize)).map fun (y : Int) =>
          DrawCmd.mk (pos.1 + (x : ℚ), pos.2 + (y : ℚ)) text blackColor) =
      (offsetRange (outlineThickness fontSize)).flatMap fun (x : Int) =>
        (offsetRange (outlineThickness fontSize)).map fun (y : Int) =>
          DrawCmd.mk (pos.1 + (x : ℚ), pos.2 + (y : ℚ)) text blackColor := by
    apply List.filter_eq_self.mpr
    intro c hc
    rcases List.mem_flatMap.mp hc with ⟨x, _, hc2⟩
    rcases List.mem_map.mp hc2 with ⟨y, _, rfl⟩
    simp
  have h2 : List.filter (fun c => decide (c.color = blackColor))
      [DrawCmd.mk pos text whiteColor] = [] := by
    simp [List.filter_cons, whiteColor, blackColor]
  rw [h1, h2, List.append_nil]

/-- The white fill pass of `_draw_outlined_text` is exactly one command at
the exact anchor. -/
lemma draw_white_filter (pos : ℚ × ℚ) (text : List Char) (fontSize : Nat) :
    (_draw_outlined_text pos text fontSize).filter
      (fun c => decide (c.color = whiteColor)) =
    [DrawCmd.mk pos text whiteColor] := by
  rw [_draw_outlined_text, List.filter_append]
  have h1 : List.filter (fun c => decide (c.color = whiteColor))
      ((offsetRange (outlineThickness fontSize)).flatMap fun (x : Int) =>
        (offsetRange (outlineThickness fontSize)).map fun (y : Int) =>
          DrawCmd.mk (pos.1 + (x : ℚ), pos.2 + (y : ℚ)) text blackColor) =
      [] := by
    apply List.filter_eq_nil_iff.mpr
    intro c hc
    rcases List.mem_flatMap.mp hc with ⟨x, _, hc2⟩
    rcases List.mem_map.mp hc2 with ⟨y, _, rfl⟩
    intro h
    exact absurd (of_decide_eq_true h)
      (show ¬blackColor = whiteColor by decide)
  have h2 : List.filter (fun c => decide (c.color = whiteColor))
      [DrawCmd.mk pos text whiteColor] = [DrawCmd.mk pos text whiteColor] := by
    simp [List.filter_cons]
  rw [h1, h2, List.nil_append]

/-- C6: `_draw_outlined_text` uses thickness `t = max(1, font_size // 25)`;
it draws the text in black at every offset `(x+dx, y+dy)` with
`dx, dy ∈ [-t, t]` — `(2t+1)²` black draws in total, hence exactly 9 when
`t = 1` — and draws the text in white exactly once, at the exact anchor,
as the last command; all of this for every caption text. -/
theorem draw_outlined_text_correct (pos : ℚ × ℚ) (text : List Char)
    (fontSize : Nat) :
    ((_draw_outlined_text pos text fontSize).filter
      (fun c => decide (c.color = blackColor))).length =
      (2 * outlineThickness fontSize + 1) ^ 2 ∧
    (∀ dx dy : Int,
      -(outlineThickness fontSize : Int) ≤ dx →
      dx ≤ (outlineThickness fontSize : Int) →
      -(outlineThickness fontSize : Int) ≤ dy →
      dy ≤ (outlineThickness fontSize : Int) →
      DrawCmd.mk (pos.1 + (dx : ℚ), pos.2 + (dy : ℚ)) text blackColor ∈
        _draw_outlined_text pos text fontSize) ∧
    (_draw_outlined_text pos text fontSize).filter
      (fun c => decide (c.color = whiteColor)) =
      [DrawCmd.mk pos text whiteColor] ∧
    (_draw_outlined_text pos text fontSize).getLast? =
      some (DrawCmd.mk pos text whiteColor) := by
  refine ⟨?_, ?_, draw_white_filter pos text fontSize, ?_⟩
  · rw [draw_black_filter,
      length_flatMap_const _ _ (2 * outlineThickness fontSize + 1)
        (fun x => by rw [List.length_map, length_offsetRange]),
      length_offsetRange, pow_two]
  · intro dx dy h1 h2 h3 h4
    rw [_draw_outlined_text]
    apply List.mem_append_left
    exact List.mem_flatMap.mpr ⟨dx, mem_offsetRange.mpr ⟨h1, h2⟩,
      List.mem_map.mpr ⟨dy, mem_offsetRange.mpr ⟨h3, h4⟩, rfl⟩⟩
  · rw [_draw_outlined_text]
    exact List.getLast?_concat _

/-- Witness for C6: at font size 10 the thickness is `max(1, 0) = 1` and the
offset `(1, -1)` receives a black draw. -/
theorem draw_outlined_text_correct_witness :
    DrawCmd.mk ((3 : ℚ) + ((1 : Int) : ℚ), (5 : ℚ) + ((-1 : Int) : ℚ))
      ['H'] blackColor ∈ _draw_outlined_text (3, 5) ['H'] 10 :=
  (draw_outlined_text_correct (3, 5) ['H'] 10).2.1 1 (-1)
    (by decide) (by decide) (by decide) (by decide)

/-- C5: in `_generate`, the white fill draws are exactly two — the top
caption's final text at `topTextPosition` (horizontally centered, y = 0)
and the bottom caption's final text at `bottomTextPosition` (horizontally
centered, `y = image_height - text_height * 7/6`), where the text block
sizes are measured at each caption's chosen font size, in rational (float)
arithmetic. -/
theorem generate_positions (getsize : List Char → Nat → Nat)
    (textsize : List Char → Nat → Nat × Nat) (imageW imageH : Nat)
    (top0 bottom0 : List Char) :
    (_generate getsize textsize imageW imageH top0 bottom0).filter
      (fun c => decide (c.color = whiteColor)) =
    [DrawCmd.mk
      (topTextPosition imageW
        (textsize
          (_optimize_font_size getsize top0 (imageH / 5) (imageH / 12)
            (imageW - 20)).2
          (_optimize_font_size getsize top0 (imageH / 5) (imageH / 12)
            (imageW - 20)).1).1)
      (_optimize_font_size getsize top0 (imageH / 5) (imageH / 12)
        (imageW - 20)).2
      whiteColor,
     DrawCmd.mk
      (bottomTextPosition imageW imageH
        (textsize
          (_optimize_font_size getsize bottom0 (imageH / 5) (imageH / 12)
            (imageW - 20)).2
          (_optimize_font_size getsize bottom0 (imageH / 5) (imageH / 12)
            (imageW - 20)).1).1
        (textsize
          (_optimize_font_size getsize bottom0 (imageH / 5) (imageH / 12)
            (imageW - 20)).2
          (_optimize_font_size getsize bottom0 (imageH / 5) (imageH / 12)
            (imageW - 20)).1).2)
      (_optimize_font_size getsize bottom0 (imageH / 5) (imageH / 12)
        (imageW - 20)).2
      whiteColor] := by
  show (_draw_outlined_text _ _ _ ++ _draw_outlined_text _ _ _).filter _ = _
  rw [List.filter_append, draw_white_filter, draw_white_filter]
  rfl

/- ## Path and hash claims -/

/-- C7: path derivation is deterministic (`imagePath` is a pure function of
root, template key, caption path and the four override fields); with a root
present, the digest segment `#<digest>` is in the path exactly when at
least one of style, font, width, height is set to a non-default (truthy)
value, and the digest is `digest` applied to the string forms of the four
fields concatenated in that order, a missing field contributing the empty
string rather than being omitted. -/
theorem path_correct (digest : List Char → List Char)
    (root templateKey textPath : List Char)
    (style font : Option (List Char)) (width height : Option Nat)
    (hroot : root ≠ []) :
    imagePath digest root templateKey textPath style font width height =
      imagePath digest root templateKey textPath style font width height ∧
    ((truthyStr style || truthyStr font || truthyNat width ||
        truthyNat height) = true →
      imagePath digest root templateKey textPath style font width height =
        some (root ++ ['/'] ++ templateKey ++ ['/'] ++ textPath ++ ['#'] ++
          digest (strOrEmpty style ++ strOrEmpty font ++
            strOrEmptyNat width ++ strOrEmptyNat height) ++
          ['.', 'i', 'm', 'g'])) ∧
    ((truthyStr style || truthyStr font || truthyNat width ||
        truthyNat height) = false →
      imagePath digest root templateKey textPath style font width height =
        some (root ++ ['/'] ++ templateKey ++ ['/'] ++ textPath ++
          ['.', 'i', 'm', 'g'])) := by
  refine ⟨rfl, ?_, ?_⟩
  · intro h
    rw [imagePath, if_neg hroot, if_pos h, imageHash]
  · intro h
    rw [imagePath, if_neg hroot, if_neg (by rw [h]; exact Bool.false_ne_true)]

/-- Witness for C7: root `"r"`, template `"k"`, caption path `"t"`, style
`"s"` set, identity digest: the derived path is `r/k/t#s.img`. -/
theorem path_correct_witness :
    imagePath (fun l => l) ['r'] ['k'] ['t'] (some ['s']) none none none =
      some ['r', '/', 'k', '/', 't', '#', 's', '.', 'i', 'm', 'g'] :=
  (path_correct (fun l => l) ['r'] ['k'] ['t'] (some ['s']) none none none
    (by decide)).2.1 (by decide)

/-- C8 counterexample: the override tuples `(None, None, None, None)` and
`("", None, None, None)` agree on font, width and height and differ in
style, yet produce identical digests, because Python's `str(style or "")`
maps both `None` and `""` to the empty string before hashing.  (Stated
with the identity digest; the hash inputs are equal, so the digests are
equal for every digest function, md5 included.) -/
theorem hash_collision_none_empty :
    imageHash (fun l => l) none none none none =
      imageHash (fun l => l) (some []) none none none ∧
    (none : Option (List Char)) ≠ some [] := by
  exact ⟨rfl, by decide⟩

/-- C8 amended: changing exactly one of the four override fields changes
the digest, provided the two values of that field have distinct string
forms under Python's `str(value or "")` coercion (`None`/`""`/`0` all
collapse to the empty string) and the digest function is injective
(md5 is only collision-resistant, not injective; the concatenated hash
inputs themselves are what provably differ). -/
theorem hash_overrides_injective (digest : List Char → List Char)
    (hinj : Function.Injective digest)
    (s1 s2 f1 f2 : Option (List Char)) (w1 w2 h1 h2 : Option Nat)
    (hdiff :
      (strOrEmpty s1 ≠ strOrEmpty s2 ∧ f1 = f2 ∧ w1 = w2 ∧ h1 = h2) ∨
      (s1 = s2 ∧ strOrEmpty f1 ≠ strOrEmpty f2 ∧ w1 = w2 ∧ h1 = h2) ∨
      (s1 = s2 ∧ f1 = f2 ∧ strOrEmptyNat w1 ≠ strOrEmptyNat w2 ∧
        h1 = h2) ∨
      (s1 = s2 ∧ f1 = f2 ∧ w1 = w2 ∧
        strOrEmptyNat h1 ≠ strOrEmptyNat h2)) :
    imageHash digest s1 f1 w1 h1 ≠ imageHash digest s2 f2 w2 h2 := by
  intro heq
  have hcat : strOrEmpty s1 ++ strOrEmpty f1 ++ strOrEmptyNat w1 ++
      strOrEmptyNat h1 =
      strOrEmpty s2 ++ strOrEmpty f2 ++ strOrEmptyNat w2 ++
      strOrEmptyNat h2 := hinj heq
  rcases hdiff with ⟨hs, hf, hw, hh⟩ | ⟨hs, hf, hw, hh⟩ |
    ⟨hs, hf, hw, hh⟩ | ⟨hs, hf, hw, hh⟩
  · subst hf; subst hw; subst hh
    exact hs (List.append_cancel_right (List.append_cancel_right
      (List.append_cancel_right hcat)))
  · subst hs; subst hw; subst hh
    exact hf (List.append_cancel_left (List.append_cancel_right
      (List.append_cancel_right hcat)))
  · subst hs; subst hf; subst hh
    exact hw (List.append_cancel_left (List.append_cancel_right hcat))
  · subst hs; subst hf; subst hw
    exact hh (List.append_cancel_left hcat)

/-- Witness for the amended C8: styles `"a"` and `"b"`, identity digest. -/
theorem hash_overrides_injective_witness :
    imageHash (fun l => l) (some ['a']) none none none ≠
      imageHash (fun l => l) (some ['b']) none none none :=
  hash_overrides_injective (fun l => l) (fun a b h => h)
    (some ['a']) (some ['b']) none none none none none none
    (Or.inl ⟨by decide, rfl, rfl, rfl⟩)

/-- C9: if loading the background or resolving the font fails, the render
aborts before any drawing and before any persistence step — `Image.save`
performs no filesystem operation (no directory created, no file written)
and propagates the error. -/
theorem save_aborts_on_input_error
    (background : Except (List Char) (Nat × Nat))
    (fontRes : Except (List Char)
      ((List Char → Nat → Nat) × (List Char → Nat → Nat × Nat)))
    (top0 bottom0 dir path : List Char) (dirExists : Bool)
    (h : (∃ e, background = .error e) ∨ (∃ e, fontRes = .error e)) :
    (imageSave (generateExcept background fontRes top0 bottom0) dir path
      dirExists).1 = [] ∧
    ∃ e, (imageSave (generateExcept background fontRes top0 bottom0) dir
      path dirExists).2 = .error e := by
  cases background with
  | error e => exact ⟨rfl, e, rfl⟩
  | ok size =>
    cases fontRes with
    | error e => exact ⟨rfl, e, rfl⟩
    | ok f =>
      rcases h with ⟨e, he⟩ | ⟨e, he⟩ <;> exact Except.noConfusion he

/-- Witness for C9: an unreadable background aborts `Image.save` with no
filesystem operations. -/
theorem save_aborts_on_input_error_witness :
    (imageSave (generateExcept (Except.error ['x'])
      (Except.ok (zeroGetsize, zeroTextsize)) [] []) ['d'] ['p'] true).1 =
      [] ∧
    ∃ e, (imageSave (generateExcept (Except.error ['x'])
      (Except.ok (zeroGetsize, zeroTextsize)) [] []) ['d'] ['p'] true).2 =
      Except.error e :=
  save_aborts_on_input_error (Except.error ['x'])
    (Except.ok (zeroGetsize, zeroTextsize)) [] [] ['d'] ['p'] true
    (Or.inl ⟨['x'], rfl⟩)
